import Mathlib

/-!
Verification of the wick repository's core helpers against its
natural-language specification.

The development shallowly embeds the Go sources:
  * `src/core/helpers.go`  — argument codec (`listToWampList`, `dictToWampDict`,
    `getPathIfFile`), text formatting (`ArgsKWArgs`, `progressArgsKWArgs`),
    the self-terminating invocation handler (`registerInvocationHandler`) and
    error aggregation (`getErrorFromErrorChannel`).
  * `src/cmd/wick/helpers.go` — the bounded session-pool builder (`getSessions`).
  * the compose task runner (`executeTasks` and the four validators).

Conventions of the embedding:
  * Go maps (`wamp.Dict`, `map[string]interface{}`) are modelled as
    key-sorted association chains; `encoding/json` marshals map keys in
    sorted order, which makes this the canonical representation.
  * Machine integers are modelled as `Int`/`Nat` with explicit range checks
    where Go's `strconv` reports overflow.
  * Concurrency (worker pools, channels) is modelled by the per-attempt
    outcome lists the pool produces; the bounded error channel becomes the
    list of collected outcomes in completion order.
  * A Go runtime panic (slice bounds out of range) is an explicit
    `ConvResult.panicked` outcome.
-/

set_option maxRecDepth 8192

namespace Wick

/-! ### Character and string utilities -/

/-- Single-quote character, written via its code point. -/
def sqChar : Char := Char.ofNat 39

/-- Double-quote character, written via its code point. -/
def dqChar : Char := Char.ofNat 34

/-- Opening-brace character, written via its code point. -/
def lbraceChar : Char := Char.ofNat 123

/-- Closing-brace character, written via its code point. -/
def rbraceChar : Char := Char.ofNat 125

/-- Backslash character. -/
def bslashChar : Char := Char.ofNat 92

/-- Single-quote as a one-character string. -/
def sqStr : String := String.mk [sqChar]

/-- Double-quote as a one-character string. -/
def dqStr : String := String.mk [dqChar]

/-- Model of `strings.HasPrefix(s, q)` for a one-character ASCII `q`. -/
def headIs (q : Char) (s : String) : Bool :=
  match s.data with
  | [] => false
  | c :: _ => c = q

/-- Model of `strings.HasSuffix(s, q)` for a one-character ASCII `q`. -/
def lastIs (q : Char) (s : String) : Bool :=
  match s.data.getLast? with
  | some c => c = q
  | none => false

/-- Both `strings.HasPrefix(s, q)` and `strings.HasSuffix(s, q)`. -/
def quoteWrapped (q : Char) (s : String) : Bool :=
  headIs q s && lastIs q s

/-- The Go slice `s[1:len(s)-1]` for a string whose first and last bytes
are ASCII (only evaluated under that guard with `2 ≤ s.length`). -/
def stripEnds (s : String) : String :=
  String.mk (s.data.drop 1).dropLast

/-- Model of `strings.HasPrefix(s, ":=")`. -/
def markerPrefixed (s : String) : Bool :=
  match s.data with
  | c1 :: c2 :: _ => c1 = ':' && c2 = '='
  | _ => false

/-- Decimal digit test (ASCII `0`-`9`). -/
def isDigitChar (c : Char) : Bool := 48 ≤ c.toNat && c.toNat ≤ 57

/-- Hexadecimal digit test. -/
def isHexDigitChar (c : Char) : Bool :=
  isDigitChar c || (97 ≤ c.toNat && c.toNat ≤ 102) || (65 ≤ c.toNat && c.toNat ≤ 70)

/-- Numeric value of a decimal digit. -/
def digitVal (c : Char) : Nat := c.toNat - 48

/-- Numeric value of a hexadecimal digit. -/
def hexDigitVal (c : Char) : Nat :=
  if isDigitChar c then c.toNat - 48
  else if 97 ≤ c.toNat && c.toNat ≤ 102 then c.toNat - 87
  else c.toNat - 55

/-- Fold a digit list into a natural number (most significant first). -/
def digitsToNat (cs : List Char) : Nat :=
  cs.foldl (fun acc c => acc * 10 + digitVal c) 0

/-- Fold a hex digit list into a natural number (most significant first). -/
def hexDigitsToNat (cs : List Char) : Nat :=
  cs.foldl (fun acc c => acc * 16 + hexDigitVal c) 0

/-- ASCII lower-casing of a character (for case-insensitive float specials). -/
def lowerChar (c : Char) : Char :=
  if 65 ≤ c.toNat && c.toNat ≤ 90 then Char.ofNat (c.toNat + 32) else c

/-! ### Models of Go `strconv` parsers

These model the standard-library parsers the codec in
`src/core/helpers.go` delegates to.  Digit-separating underscores, which
Go's `ParseFloat` additionally accepts, are not modelled. -/

/-- Model of `strconv.Atoi`: optional sign, one or more decimal digits,
nothing else, and the value must fit in a signed 64-bit integer. -/
def parseAtoi (s : String) : Option Int :=
  let withSign : List Char → Option (Bool × List Char) := fun cs =>
    match cs with
    | [] => none
    | c :: rest =>
      if c = '-' then some (true, rest)
      else if c = '+' then some (false, rest)
      else some (false, cs)
  match withSign s.data with
  | none => none
  | some (neg, digits) =>
    if digits = [] then none
    else if digits.all isDigitChar then
      let n := digitsToNat digits
      if neg then
        if n ≤ 2 ^ 63 then some (-(n : Int)) else none
      else
        if n ≤ 2 ^ 63 - 1 then some (n : Int) else none
    else none

/-- Model of `strconv.ParseBool`: the exact accepted literal set. -/
def parseGoBool (s : String) : Option Bool :=
  if s = "1" || s = "t" || s = "T" || s = "TRUE" || s = "true" || s = "True" then some true
  else if s = "0" || s = "f" || s = "F" || s = "FALSE" || s = "false" || s = "False" then
    some false
  else none

/-- A parsed Go `float64`, with the exact pre-rounding magnitude kept as a
rational (rounding to binary64 does not affect any classification claim). -/
inductive GoFloat where
  | finite (q : Rat)
  | inf (neg : Bool)
  | nan
deriving DecidableEq

/-- Numerator of the binary64 overflow midpoint `2^1024 - 2^970`, written
as a literal so it evaluates cheaply: a value at or above it makes Go
report a range error. -/
def float64MidpointNum : Nat := 179769313486231580793728971405303415079934132710037826936173778980444968292764750946649017977587207096330286416692887910946555547851940402630657488671505820681908902000708383676273854845817711531764475730270069855571366959622842914819860834936475292719074168444365510704342711559699508093042880177904174497792

/-- Whether `m * 10 ^ e` reaches the binary64 overflow midpoint. -/
def decimalOverflows (m : Nat) (e : Int) : Bool :=
  if 0 ≤ e then float64MidpointNum ≤ m * 10 ^ e.toNat
  else float64MidpointNum * 10 ^ (-e).toNat ≤ m

/-- Whether `m * 2 ^ e` reaches the binary64 overflow midpoint. -/
def binaryOverflows (m : Nat) (e : Int) : Bool :=
  if 0 ≤ e then float64MidpointNum ≤ m * 2 ^ e.toNat
  else float64MidpointNum * 2 ^ (-e).toNat ≤ m

/-- The exact rational `m * base ^ e` with an optional sign, built with
`mkRat` so that it evaluates under `decide`. -/
def scaledToRat (base : Nat) (m : Nat) (e : Int) (neg : Bool) : Rat :=
  let mag : Rat :=
    if 0 ≤ e then mkRat (m * base ^ e.toNat : Nat) 1
    else mkRat (m : Nat) (base ^ (-e).toNat)
  if neg then -mag else mag

/-- Split a digit run: mantissa digits with at most one point.  Returns
integer digits, fraction digits, and whether a point was seen. -/
def splitMantissa (digitP : Char → Bool) :
    List Char → Option (List Char × List Char)
  | cs =>
    let intPart := cs.takeWhile digitP
    let rest := cs.dropWhile digitP
    match rest with
    | [] => some (intPart, [])
    | c :: rest' =>
      if c = '.' then
        let fracPart := rest'.takeWhile digitP
        let rest'' := rest'.dropWhile digitP
        if rest'' = [] then some (intPart, fracPart) else none
      else none

/-- Read a decimal exponent suffix: optional sign then one or more digits. -/
def parseExponentDigits (cs : List Char) : Option Int :=
  let (neg, ds) :=
    match cs with
    | c :: rest =>
      if c = '-' then (true, rest) else if c = '+' then (false, rest) else (false, cs)
    | [] => (false, [])
  if ds = [] then none
  else if ds.all isDigitChar then
    let n := digitsToNat ds
    some (if neg then -(n : Int) else (n : Int))
  else none

/-- Natural-number value of mantissa digits (integer and fraction parts
concatenated) with the given digit weights. -/
def mantissaDigitsToNat (base : Nat) (toVal : Char → Nat)
    (intPart fracPart : List Char) : Nat :=
  (intPart ++ fracPart).foldl (fun acc c => acc * base + toVal c) 0

/-- Model of `strconv.ParseFloat(s, 64)`: sign, then `inf`/`infinity`/`nan`
(case-insensitive), or a decimal mantissa with optional exponent, or a hex
mantissa with its mandatory binary exponent.  Values whose magnitude reaches
the binary64 overflow midpoint are rejected, as Go reports a range error. -/
def parseGoFloat (s : String) : Option GoFloat :=
  let cs := s.data
  let (neg, body) :=
    match cs with
    | c :: rest =>
      if c = '-' then (true, rest) else if c = '+' then (false, rest) else (false, cs)
    | [] => (false, ([] : List Char))
  let lowered := body.map lowerChar
  if lowered = ['i', 'n', 'f'] || lowered = ['i', 'n', 'f', 'i', 'n', 'i', 't', 'y'] then
    some (.inf neg)
  else if lowered = ['n', 'a', 'n'] then
    some .nan
  else
    match lowered with
    | '0' :: 'x' :: hexBody =>
      let mantissa := hexBody.takeWhile (fun c => isHexDigitChar c || c = '.')
      let expPart := hexBody.dropWhile (fun c => isHexDigitChar c || c = '.')
      match splitMantissa isHexDigitChar mantissa, expPart with
      | some (ip, fp), 'p' :: expDigits =>
        if ip = [] && fp = [] then none
        else
          match parseExponentDigits expDigits with
          | some e =>
            let m := mantissaDigitsToNat 16 hexDigitVal ip fp
            let e' := e - 4 * (fp.length : Int)
            if binaryOverflows m e' then none
            else some (.finite (scaledToRat 2 m e' neg))
          | none => none
      | _, _ => none
    | _ =>
      let mantissa := body.takeWhile (fun c => isDigitChar c || c = '.')
      let expPart := body.dropWhile (fun c => isDigitChar c || c = '.')
      match splitMantissa isDigitChar mantissa with
      | some (ip, fp) =>
        if ip = [] && fp = [] then none
        else
          let m := mantissaDigitsToNat 10 digitVal ip fp
          let finish : Int → Option GoFloat := fun ex =>
            let e' := ex - (fp.length : Int)
            if decimalOverflows m e' then none
            else some (.finite (scaledToRat 10 m e' neg))
          match expPart with
          | [] => finish 0
          | e :: expDigits =>
            if e = 'e' || e = 'E' then
              match parseExponentDigits expDigits with
              | some ex => finish ex
              | none => none
            else none
      | none => none

/-! ### Model of `encoding/json` decoding

JSON values are a single non-nested inductive: arrays and objects are
cons-chains, which keeps every function on them structurally recursive and
hence computable by `decide`.  Object chains are kept key-sorted with
duplicate keys resolved the way Go map assignment does (the later field
wins), the canonical form for Go maps. -/

inductive JsonVal where
  | jnull
  | jbool (b : Bool)
  | jnum (q : Rat)
  | jstr (s : String)
  | jarrNil
  | jarrCons (hd tl : JsonVal)
  | jobjNil
  | jobjCons (key : String) (val : JsonVal) (tl : JsonVal)
deriving DecidableEq

/-- JSON insignificant whitespace. -/
def isJsonWs (c : Char) : Bool :=
  c = ' ' || c = '\t' || c = '\n' || c = '\r'

/-- Drop leading JSON whitespace. -/
def skipWs (cs : List Char) : List Char := cs.dropWhile isJsonWs

/-- Decode a JSON string body (the opening quote already consumed),
returning the decoded text and the input following the closing quote.
Escapes are the JSON ones; a `\uXXXX` escape outside the valid scalar
range decodes to the replacement character (surrogate-pair recombination
is not modelled).  Unescaped control characters are rejected. -/
def parseJsonStringBody : List Char → Option (String × List Char)
  | [] => none
  | c :: rest =>
    if c = dqChar then some ("", rest)
    else if c = bslashChar then
      match rest with
      | [] => none
      | e :: rest' =>
        let simpleEsc : Option Char :=
          if e = dqChar then some dqChar
          else if e = bslashChar then some bslashChar
          else if e = '/' then some '/'
          else if e = 'b' then some (Char.ofNat 8)
          else if e = 'f' then some (Char.ofNat 12)
          else if e = 'n' then some '\n'
          else if e = 'r' then some '\r'
          else if e = 't' then some '\t'
          else none
        match simpleEsc with
        | some d =>
          match parseJsonStringBody rest' with
          | some (s, after) => some (String.mk (d :: s.data), after)
          | none => none
        | none =>
          if e = 'u' then
            match rest' with
            | h1 :: h2 :: h3 :: h4 :: rest'' =>
              if isHexDigitChar h1 && isHexDigitChar h2 && isHexDigitChar h3 &&
                  isHexDigitChar h4 then
                let code := hexDigitsToNat [h1, h2, h3, h4]
                let d := if 0xd800 ≤ code && code ≤ 0xdfff then Char.ofNat 0xfffd
                         else Char.ofNat code
                match parseJsonStringBody rest'' with
                | some (s, after) => some (String.mk (d :: s.data), after)
                | none => none
              else none
            | _ => none
          else none
    else if c.toNat < 32 then none
    else
      match parseJsonStringBody rest with
      | some (s, after) => some (String.mk (c :: s.data), after)
      | none => none

/-- Decode a JSON number at the head of the input: `-?` then `0` or a
nonzero-led digit run, optional fraction, optional exponent.  Magnitudes
at or beyond the binary64 overflow midpoint are rejected, as Go's decoder
reports them out of range for a `float64`. -/
def parseJsonNumber (cs : List Char) : Option (Rat × List Char) :=
  let (neg, body) :=
    match cs with
    | c :: rest => if c = '-' then (true, rest) else (false, cs)
    | [] => (false, ([] : List Char))
  let intDigits := body.takeWhile isDigitChar
  let afterInt := body.dropWhile isDigitChar
  let intOk : Bool :=
    match intDigits with
    | [] => false
    | [_] => true
    | d :: _ => d ≠ '0'
  if intOk then
    let (fracDigits, afterFrac) :=
      match afterInt with
      | c :: rest =>
        if c = '.' then (rest.takeWhile isDigitChar, rest.dropWhile isDigitChar)
        else (([] : List Char), afterInt)
      | [] => (([] : List Char), afterInt)
    let fracPresent : Bool :=
      match afterInt with
      | c :: _ => c = '.'
      | [] => false
    if fracPresent && fracDigits = [] then none
    else
      let contAfterFrac := afterFrac
      let (expVal, afterExp) :
          Option Int × List Char :=
        match contAfterFrac with
        | c :: rest =>
          if c = 'e' || c = 'E' then
            let (eneg, ds) :=
              match rest with
              | d :: rest' =>
                if d = '-' then (true, rest')
                else if d = '+' then (false, rest')
                else (false, rest)
              | [] => (false, ([] : List Char))
            let expDigits := ds.takeWhile isDigitChar
            let afterE := ds.dropWhile isDigitChar
            if expDigits = [] then (none, contAfterFrac)
            else
              (some (if eneg then -(digitsToNat expDigits : Int)
                     else (digitsToNat expDigits : Int)), afterE)
          else (some 0, contAfterFrac)
        | [] => (some 0, contAfterFrac)
      match expVal with
      | none => none
      | some e =>
        let m := mantissaDigitsToNat 10 digitVal intDigits fracDigits
        let e' := e - (fracDigits.length : Int)
        if decimalOverflows m e' then none
        else some (scaledToRat 10 m e' neg, afterExp)
  else none

/-- Insert a parsed object field in front of the already-parsed tail
fields, keeping the chain key-sorted; Go map assignment lets a later
duplicate field win, so an earlier field whose key already occurs in the
tail is dropped. -/
def insertField (k : String) (v : JsonVal) : JsonVal → JsonVal
  | .jobjCons k' v' tl =>
    if k = k' then .jobjCons k' v' tl
    else if k < k' then .jobjCons k v (.jobjCons k' v' tl)
    else .jobjCons k' v' (insertField k v tl)
  | other => .jobjCons k v other

/-- Fuelled JSON parser.  `mode 0` parses a value, `mode 1` the elements
of an array after its `[`, `mode 2` the fields of an object after its
`{` (both knowing the collection is non-empty).  Fuel only decreases, so
the recursion is structural and the parser evaluates under `decide`. -/
def parseJson : Nat → Nat → List Char → Option (JsonVal × List Char)
  | 0, _, _ => none
  | n + 1, 0, cs =>
    match skipWs cs with
    | [] => none
    | c :: rest =>
      if c = dqChar then
        match parseJsonStringBody rest with
        | some (s, after) => some (.jstr s, after)
        | none => none
      else if c = '[' then
        match skipWs rest with
        | c2 :: r2 =>
          if c2 = ']' then some (.jarrNil, r2) else parseJson n 1 rest
        | [] => none
      else if c = lbraceChar then
        match skipWs rest with
        | c2 :: r2 =>
          if c2 = rbraceChar then some (.jobjNil, r2) else parseJson n 2 rest
        | [] => none
      else if c = 't' then
        match rest with
        | 'r' :: 'u' :: 'e' :: r => some (.jbool true, r)
        | _ => none
      else if c = 'f' then
        match rest with
        | 'a' :: 'l' :: 's' :: 'e' :: r => some (.jbool false, r)
        | _ => none
      else if c = 'n' then
        match rest with
        | 'u' :: 'l' :: 'l' :: r => some (.jnull, r)
        | _ => none
      else
        match parseJsonNumber (c :: rest) with
        | some (q, after) => some (.jnum q, after)
        | none => none
  | n + 1, 1, cs =>
    match parseJson n 0 cs with
    | some (v, r) =>
      match skipWs r with
      | c :: r2 =>
        if c = ',' then
          match parseJson n 1 r2 with
          | some (tl, r3) => some (.jarrCons v tl, r3)
          | none => none
        else if c = ']' then some (.jarrCons v .jarrNil, r2)
        else none
      | [] => none
    | none => none
  | n + 1, 2, cs =>
    match skipWs cs with
    | c :: rest =>
      if c = dqChar then
        match parseJsonStringBody rest with
        | some (k, r) =>
          match skipWs r with
          | c2 :: r2 =>
            if c2 = ':' then
              match parseJson n 0 r2 with
              | some (v, r3) =>
                match skipWs r3 with
                | c3 :: r4 =>
                  if c3 = ',' then
                    match parseJson n 2 r4 with
                    | some (tl, r5) => some (insertField k v tl, r5)
                    | none => none
                  else if c3 = rbraceChar then
                    some (insertField k v .jobjNil, r4)
                  else none
                | [] => none
              | none => none
            else none
          | [] => none
        | none => none
      else none
    | [] => none
  | _ + 1, _ + 3, _ => none

/-- Decode a complete JSON document: one value, with only whitespace
around it (Go's `json.Unmarshal` rejects trailing data). -/
def decodeJson (s : String) : Option JsonVal :=
  match parseJson (2 * s.data.length + 4) 0 s.data with
  | some (v, rest) => if skipWs rest = [] then some v else none
  | none => none

/-- Whether a decoded value is an object chain. -/
def isObjChain : JsonVal → Bool
  | .jobjNil => true
  | .jobjCons _ _ _ => true
  | _ => false

/-- Flatten an array chain to a list of elements (`none` if the value is
not an array chain). -/
def arrChainToList : JsonVal → Option (List JsonVal)
  | .jarrNil => some []
  | .jarrCons hd tl =>
    match arrChainToList tl with
    | some l => some (hd :: l)
    | none => none
  | _ => none

/-- Model of `json.Unmarshal` into `map[string]interface{}`: succeeds on a
JSON object (the map) or JSON `null` (a nil map). -/
def unmarshalIntoMap (s : String) : Option (Option JsonVal) :=
  match decodeJson s with
  | some .jnull => some none
  | some v => if isObjChain v then some (some v) else none
  | none => none

/-- Model of `json.Unmarshal` into `[]map[string]interface{}`: a JSON
array whose elements are each an object or `null`, or a top-level `null`
(a nil slice). -/
def unmarshalIntoObjList (s : String) : Option (Option (List (Option JsonVal))) :=
  match decodeJson s with
  | some .jnull => some none
  | some v =>
    match arrChainToList v with
    | some elems =>
      let conv : JsonVal → Option (Option JsonVal) := fun e =>
        match e with
        | .jnull => some none
        | w => if isObjChain w then some (some w) else none
      match elems.mapM conv with
      | some l => some (some l)
      | none => none
    | none => none
  | none => none

/-- Model of `json.Unmarshal` into `[]interface{}`: a JSON array, or a
top-level `null` (a nil slice). -/
def unmarshalIntoList (s : String) : Option (Option (List JsonVal)) :=
  match decodeJson s with
  | some .jnull => some none
  | some v =>
    match arrChainToList v with
    | some elems => some (some elems)
    | none => none
  | none => none

/-! ### The argument codec (`listToWampList`, `dictToWampDict`)

`src/core/helpers.go` lines 63-164.  File contents are supplied by an
abstract file system `fs : String → Except String (List Nat)` standing in
for `os.ReadFile` (path to raw bytes, or a read error). -/

/-- Outcome of running the codec: a Go runtime panic (slice bounds out of
range), an aborting file-read error, or a converted value. -/
inductive ConvResult (α : Type) where
  | panicked
  | fileError (e : String)
  | ok (v : α)
deriving DecidableEq

/-- A value the codec can place into a `wamp.List` / `wamp.Dict`. -/
inductive WampVal where
  | wstr (s : String)
  | wbytes (bs : List Nat)
  | wint (n : Int)
  | wfloat (f : GoFloat)
  | wbool (b : Bool)
  | wobj (o : Option JsonVal)
  | wobjList (l : Option (List (Option JsonVal)))
  | warr (l : Option (List JsonVal))
deriving DecidableEq

/-- Split a character list at the first occurrence of the marker `:=`,
returning the parts before and after it (the model of
`strings.SplitN(arg, ":=", 2)` having found the marker). -/
def splitAtMarker : List Char → Option (List Char × List Char)
  | [] => none
  | c :: rest =>
    if c = ':' then
      match rest with
      | c2 :: rest2 =>
        if c2 = '=' then some ([], rest2)
        else
          match splitAtMarker rest with
          | some (before, after) => some (c :: before, after)
          | none => none
      | [] => none
    else
      match splitAtMarker rest with
      | some (before, after) => some (c :: before, after)
      | none => none

/-- Model of `getPathIfFile` (`src/core/helpers.go` lines 63-69): any
argument containing the marker `:=` is treated as a file reference whose
path is everything after the first marker. -/
def getPathIfFile (arg : String) : String × Bool :=
  match splitAtMarker arg.data with
  | some (_, after) => (String.mk after, true)
  | none => ("", false)

/-- Classification of one raw argument string, the per-element body shared
by `listToWampList` and `dictToWampDict` (`src/core/helpers.go` lines
83-115 and 129-161): the quoted-literal cases of the `switch` come first
(a lone quote character makes the quote-stripping slice `value[1:len-1]`
panic), then the file check, then the ordered parser cascade. -/
def classifyValue (fs : String → Except String (List Nat)) (checkFile : Bool)
    (value : String) : ConvResult WampVal :=
  if quoteWrapped sqChar value then
    if 2 ≤ value.length then .ok (.wstr (stripEnds value)) else .panicked
  else if quoteWrapped dqChar value then
    if 2 ≤ value.length then .ok (.wstr (stripEnds value)) else .panicked
  else
    let fileStep : Option (ConvResult WampVal) :=
      if checkFile then
        match getPathIfFile value with
        | (filePath, true) =>
          some (match fs filePath with
                | .ok bs => .ok (.wbytes bs)
                | .error e => .fileError e)
        | (_, false) => none
      else none
    match fileStep with
    | some r => r
    | none =>
      match parseAtoi value with
      | some n => .ok (.wint n)
      | none =>
        match parseGoFloat value with
        | some f => .ok (.wfloat f)
        | none =>
          match parseGoBool value with
          | some b => .ok (.wbool b)
          | none =>
            match unmarshalIntoMap value with
            | some m => .ok (.wobj m)
            | none =>
              match unmarshalIntoObjList value with
              | some l => .ok (.wobjList l)
              | none =>
                match unmarshalIntoList value with
                | some l => .ok (.warr l)
                | none => .ok (.wstr value)

/-- Element loop of `listToWampList`: left to right, the first panic or
file error aborts the conversion. -/
def listToWampListGo (fs : String → Except String (List Nat)) (checkFile : Bool) :
    List String → ConvResult (List WampVal)
  | [] => .ok []
  | v :: rest =>
    match classifyValue fs checkFile v with
    | .panicked => .panicked
    | .fileError e => .fileError e
    | .ok w =>
      match listToWampListGo fs checkFile rest with
      | .ok ws => .ok (w :: ws)
      | .panicked => .panicked
      | .fileError e => .fileError e

/-- Model of `listToWampList` (`src/core/helpers.go` lines 71-119): a nil
argument slice yields the empty list, otherwise each element is classified
in order. -/
def listToWampList (fs : String → Except String (List Nat))
    (args : Option (List String)) (checkFile : Bool) : ConvResult (List WampVal) :=
  match args with
  | none => .ok []
  | some l => listToWampListGo fs checkFile l

/-- Insert a key/value pair into a key-sorted association list, replacing
an existing binding (Go map assignment). -/
def insertKV (k : String) (w : WampVal) :
    List (String × WampVal) → List (String × WampVal)
  | [] => [(k, w)]
  | (k', w') :: tl =>
    if k = k' then (k, w) :: tl
    else if k < k' then (k, w) :: (k', w') :: tl
    else (k', w') :: insertKV k w tl

/-- Entry loop of `dictToWampDict` over the map entries in iteration
order, building the canonical (key-sorted) result map. -/
def dictToWampDictGo (fs : String → Except String (List Nat)) (checkFile : Bool) :
    List (String × String) → ConvResult (List (String × WampVal))
  | [] => .ok []
  | (k, v) :: rest =>
    match classifyValue fs checkFile v with
    | .panicked => .panicked
    | .fileError e => .fileError e
    | .ok w =>
      match dictToWampDictGo fs checkFile rest with
      | .ok ws => .ok (insertKV k w ws)
      | .panicked => .panicked
      | .fileError e => .fileError e

/-- Model of `dictToWampDict` (`src/core/helpers.go` lines 121-164); the
input map is given as its entry list in iteration order. -/
def dictToWampDict (fs : String → Except String (List Nat))
    (kwargs : List (String × String)) (checkFile : Bool) :
    ConvResult (List (String × WampVal)) :=
  dictToWampDictGo fs checkFile kwargs

/-- First defined alternative of an ordered list of tries, with a default
for when every try declines. -/
def firstSome {α : Type} : List (Option α) → α → α
  | [], dflt => dflt
  | some a :: _, _ => a
  | none :: rest, dflt => firstSome rest dflt

/-- Classification exactly as claim C3 words it: the fixed ordered tries,
where the quoted-literal try simply strips the outer quotes and a file
reference must be marker-prefixed (`:=path`). -/
def specClassifyStated (fs : String → Except String (List Nat)) (checkFile : Bool)
    (value : String) : ConvResult WampVal :=
  firstSome
    [ if quoteWrapped sqChar value then
        some (.ok (.wstr (stripEnds value))) else none,
      if quoteWrapped dqChar value then
        some (.ok (.wstr (stripEnds value))) else none,
      if checkFile && markerPrefixed value then
        some (match fs (String.mk (value.data.drop 2)) with
              | .ok bs => .ok (.wbytes bs)
              | .error e => .fileError e)
      else none,
      (parseAtoi value).map (fun n => .ok (.wint n)),
      (parseGoFloat value).map (fun f => .ok (.wfloat f)),
      (parseGoBool value).map (fun b => .ok (.wbool b)),
      (unmarshalIntoMap value).map (fun m => .ok (.wobj m)),
      (unmarshalIntoObjList value).map (fun l => .ok (.wobjList l)),
      (unmarshalIntoList value).map (fun l => .ok (.warr l)) ]
    (.ok (.wstr value))

/-- Classification as the amended claim words it: the same ordered tries,
except that a quoted literal needs both quote characters (a lone quote
panics in the quote-stripping slice) and that a file reference is any
string containing the marker `:=`, its path being the part after the
first marker. -/
def specClassifyAmended (fs : String → Except String (List Nat)) (checkFile : Bool)
    (value : String) : ConvResult WampVal :=
  firstSome
    [ if quoteWrapped sqChar value then
        some (if 2 ≤ value.length then .ok (.wstr (stripEnds value))
              else .panicked)
      else none,
      if quoteWrapped dqChar value then
        some (if 2 ≤ value.length then .ok (.wstr (stripEnds value))
              else .panicked)
      else none,
      if checkFile then
        match splitAtMarker value.data with
        | some (_, after) =>
          some (match fs (String.mk after) with
                | .ok bs => .ok (.wbytes bs)
                | .error e => .fileError e)
        | none => none
      else none,
      (parseAtoi value).map (fun n => .ok (.wint n)),
      (parseGoFloat value).map (fun f => .ok (.wfloat f)),
      (parseGoBool value).map (fun b => .ok (.wbool b)),
      (unmarshalIntoMap value).map (fun m => .ok (.wobj m)),
      (unmarshalIntoObjList value).map (fun l => .ok (.wobjList l)),
      (unmarshalIntoList value).map (fun l => .ok (.warr l)) ]
    (.ok (.wstr value))

/-! ### Model of `encoding/json` marshalling and the text formatters

`ArgsKWArgs` and `progressArgsKWArgs` (`src/core/helpers.go` lines
200-254) render `wamp.List`/`wamp.Dict` values with `json.MarshalIndent`
or `json.Marshal`.  Marshalled values are modelled by `MVal` (again a
non-nested inductive with cons-chains for arrays and objects, and objects
key-sorted — the order `encoding/json` emits map keys in).  `float64`
payloads, whose shortest-round-trip formatting Go computes, are not
modelled at this layer; no claim marshals one. -/

inductive MVal where
  | mnull
  | mbool (b : Bool)
  | mint (n : Int)
  | mstr (s : String)
  | marrNil
  | marrCons (hd tl : MVal)
  | mobjNil
  | mobjCons (key : String) (val : MVal) (tl : MVal)
deriving DecidableEq

/-- Lower-case hexadecimal digit. -/
def hexDigitChar (n : Nat) : Char :=
  if n < 10 then Char.ofNat (48 + n) else Char.ofNat (87 + n)

/-- JSON escaping of one character, as Go's encoder with HTML escaping
does it: quote, backslash, the named control escapes, `\u00XX` for other
control characters, `<`/`>`/`&` for `<`/`>`/`&`, and
` `/` ` for the line separators. -/
def jsonEscapeChar (c : Char) : List Char :=
  if c = dqChar then [bslashChar, dqChar]
  else if c = bslashChar then [bslashChar, bslashChar]
  else if c = '\n' then [bslashChar, 'n']
  else if c = '\r' then [bslashChar, 'r']
  else if c = '\t' then [bslashChar, 't']
  else if c = '<' || c = '>' || c = '&' || c.toNat < 32 then
    [bslashChar, 'u', '0', '0', hexDigitChar (c.toNat / 16), hexDigitChar (c.toNat % 16)]
  else if c.toNat = 0x2028 then [bslashChar, 'u', '2', '0', '2', '8']
  else if c.toNat = 0x2029 then [bslashChar, 'u', '2', '0', '2', '9']
  else [c]

/-- A JSON string literal for `s`. -/
def jsonQuote (s : String) : String :=
  String.mk (dqChar :: s.data.foldr (fun c acc => jsonEscapeChar c ++ acc) [dqChar])

/-- Compact `json.Marshal` output.  `mode 0` renders a value; `mode 1`
renders the remaining elements of an array chain, each preceded by a
comma; `mode 2` does the same for object fields.  The mode encoding keeps
the recursion structural in the value. -/
def marshalM : Nat → MVal → String
  | 0, .mnull => "null"
  | 0, .mbool true => "true"
  | 0, .mbool false => "false"
  | 0, .mint n => toString n
  | 0, .mstr s => jsonQuote s
  | 0, .marrNil => "[]"
  | 0, .marrCons hd tl => "[" ++ marshalM 0 hd ++ marshalM 1 tl ++ "]"
  | 0, .mobjNil => "\x7b\x7d"
  | 0, .mobjCons k v tl =>
    "\x7b" ++ jsonQuote k ++ ":" ++ marshalM 0 v ++ marshalM 2 tl ++ "\x7d"
  | 1, .marrCons hd tl => "," ++ marshalM 0 hd ++ marshalM 1 tl
  | 1, _ => ""
  | 2, .mobjCons k v tl => "," ++ jsonQuote k ++ ":" ++ marshalM 0 v ++ marshalM 2 tl
  | 2, _ => ""
  | _ + 3, _ => ""

/-- Marshal a value compactly (`json.Marshal`). -/
def marshalJson (v : MVal) : String := marshalM 0 v

/-- Indentation for a nesting depth: four spaces per level
(`json.MarshalIndent(v, "", "    ")`). -/
def indentOf : Nat → String
  | 0 => ""
  | d + 1 => indentOf d ++ "    "

/-- Indented `json.MarshalIndent` output, with the same mode encoding as
`marshalM`. -/
def marshalIndentM : Nat → Nat → MVal → String
  | _, 0, .mnull => "null"
  | _, 0, .mbool true => "true"
  | _, 0, .mbool false => "false"
  | _, 0, .mint n => toString n
  | _, 0, .mstr s => jsonQuote s
  | _, 0, .marrNil => "[]"
  | d, 0, .marrCons hd tl =>
    "[\n" ++ indentOf (d + 1) ++ marshalIndentM (d + 1) 0 hd ++
      marshalIndentM d 1 tl ++ "\n" ++ indentOf d ++ "]"
  | _, 0, .mobjNil => "\x7b\x7d"
  | d, 0, .mobjCons k v tl =>
    "\x7b\n" ++ indentOf (d + 1) ++ jsonQuote k ++ ": " ++
      marshalIndentM (d + 1) 0 v ++ marshalIndentM d 2 tl ++ "\n" ++ indentOf d ++ "\x7d"
  | d, 1, .marrCons hd tl =>
    ",\n" ++ indentOf (d + 1) ++ marshalIndentM (d + 1) 0 hd ++ marshalIndentM d 1 tl
  | _, 1, _ => ""
  | d, 2, .mobjCons k v tl =>
    ",\n" ++ indentOf (d + 1) ++ jsonQuote k ++ ": " ++
      marshalIndentM (d + 1) 0 v ++ marshalIndentM d 2 tl
  | _, 2, _ => ""
  | _, _ + 3, _ => ""

/-- Marshal a value with four-space indentation
(`json.MarshalIndent(v, "", "    ")`). -/
def marshalIndentJson (v : MVal) : String := marshalIndentM 0 0 v

/-- A `wamp.List` as an array chain. -/
def listToChain : List MVal → MVal
  | [] => .marrNil
  | v :: rest => .marrCons v (listToChain rest)

/-- A `wamp.Dict` (already in canonical key order) as an object chain. -/
def dictToChain : List (String × MVal) → MVal
  | [] => .mobjNil
  | (k, v) :: rest => .mobjCons k v (dictToChain rest)

/-- Model of `ArgsKWArgs` (`src/core/helpers.go` lines 200-229): an
optional `details:` part, an `args:` part only for non-empty args, a
`kwargs:` part only for non-empty kwargs, and the literal fallback when
all three are absent.  `details` distinguishes a nil map (`none`) from an
empty one. -/
def ArgsKWArgs (args : List MVal) (kwArgs : List (String × MVal))
    (details : Option (List (String × MVal))) : String :=
  let b1 :=
    match details with
    | some d => "details:" ++ marshalIndentJson (dictToChain d) ++ "\n"
    | none => ""
  let b2 := if args.length ≠ 0 then b1 ++ "args:\n" ++ marshalIndentJson (listToChain args) else b1
  let b3 :=
    if kwArgs.length ≠ 0 then b2 ++ "kwargs:\n" ++ marshalIndentJson (dictToChain kwArgs)
    else b2
  if args.length = 0 ∧ kwArgs.length = 0 ∧ details = none then
    b3 ++ "args: []\nkwargs: \x7b\x7d"
  else b3

/-- Model of `progressArgsKWArgs` (`src/core/helpers.go` lines 231-254):
the compact variant. -/
def progressArgsKWArgs (args : List MVal) (kwArgs : List (String × MVal)) : String :=
  let b1 := if args.length ≠ 0 then "args: " ++ marshalJson (listToChain args) else ""
  let b2 :=
    if kwArgs.length ≠ 0 then b1 ++ "kwargs: " ++ marshalJson (dictToChain kwArgs)
    else b1
  if args.length = 0 ∧ kwArgs.length = 0 then b2 ++ "args: [] kwargs: \x7b\x7d" else b2

/-- The stable text layout exactly as claim C4 words it: optional details
part first, `args:` part only when non-empty, `kwargs:` part only when
non-empty, and exactly the literal `args: []\nkwargs: \x7b\x7d` when args
and kwargs are empty and details is nil. -/
def claimedArgsKWArgsFormat (args : List MVal) (kwArgs : List (String × MVal))
    (details : Option (List (String × MVal))) : String :=
  (match details with
   | some d => "details:" ++ marshalIndentJson (dictToChain d) ++ "\n"
   | none => "") ++
  (if args ≠ [] then "args:\n" ++ marshalIndentJson (listToChain args) else "") ++
  (if kwArgs ≠ [] then "kwargs:\n" ++ marshalIndentJson (dictToChain kwArgs) else "") ++
  (if args = [] ∧ kwArgs = [] ∧ details = none then "args: []\nkwargs: \x7b\x7d" else "")

/-- The compact layout exactly as claim C5 words it: the form
`args: <json> kwargs: <json>` — the two segments separated by a space —
each segment present only when its collection is non-empty, and the
literal `args: [] kwargs: \x7b\x7d` when both are empty. -/
def claimedProgressFormat (args : List MVal) (kwArgs : List (String × MVal)) : String :=
  if args = [] ∧ kwArgs = [] then "args: [] kwargs: \x7b\x7d"
  else if args ≠ [] ∧ kwArgs ≠ [] then
    "args: " ++ marshalJson (listToChain args) ++ " kwargs: " ++
      marshalJson (dictToChain kwArgs)
  else if args ≠ [] then "args: " ++ marshalJson (listToChain args)
  else "kwargs: " ++ marshalJson (dictToChain kwArgs)

/-- The compact layout as the amended claim words it: the two segments
concatenated directly, with no separator between them. -/
def amendedProgressFormat (args : List MVal) (kwArgs : List (String × MVal)) : String :=
  if args = [] ∧ kwArgs = [] then "args: [] kwargs: \x7b\x7d"
  else
    (if args ≠ [] then "args: " ++ marshalJson (listToChain args) else "") ++
    (if kwArgs ≠ [] then "kwargs: " ++ marshalJson (dictToChain kwArgs) else "")

/-! ### The self-terminating invocation handler

`registerInvocationHandler` (`src/core/helpers.go` lines 166-198) builds a
closure over a countdown.  When a maximum invocation count is configured,
each invocation decrements it; at zero the procedure is unregistered and a
one-second timer (`time.AfterFunc`) is armed that closes the session when
it fires.  The closure's lifecycle is embedded as a state machine whose
two events are an invocation being dispatched and the armed grace timer
firing. -/

structure RegState where
  remaining : Int
  registered : Bool
  timerSet : Bool
  closed : Bool
deriving DecidableEq

/-- The registration state right after `Register`: the configured maximum
invocation count, registered, no close timer armed, session open. -/
def initRegState (n : Int) : RegState :=
  { remaining := n, registered := true, timerSet := false, closed := false }

/-- One run of the handler body's countdown section
(`src/core/helpers.go` lines 184-193, with `hasMaxInvokeCount` true):
`invokeCount--`; exactly at zero the procedure is unregistered and the
one-second close timer armed.  The session is never closed here. -/
def handleInvocation (s : RegState) : RegState :=
  let remaining := s.remaining - 1
  if remaining = 0 then
    { s with remaining := remaining, registered := false, timerSet := true }
  else
    { s with remaining := remaining }

inductive RegEvent where
  | invoke
  | grace
deriving DecidableEq

/-- Event step: an invocation can only be dispatched while the procedure
is registered and the session open; the grace timer can only fire once
armed and while the session is still open, and closing the session is all
it does. -/
def regStep (s : RegState) : RegEvent → Option RegState
  | .invoke =>
    if s.registered && !s.closed then some (handleInvocation s) else none
  | .grace =>
    if s.timerSet && !s.closed then some { s with closed := true } else none

/-- Run a sequence of events from a state; `none` as soon as an event is
impossible. -/
def runRegTrace (s : RegState) : List RegEvent → Option RegState
  | [] => some s
  | e :: rest =>
    match regStep s e with
    | some s' => runRegTrace s' rest
    | none => none

/-! ### Error aggregation and the session-pool builder

`getErrorFromErrorChannel` (`src/core/helpers.go` lines 297-308 and
`src/cmd/wick/helpers.go` lines 269-281) drains the bounded error channel
after the pool stops; the channel contents are modelled as the list of
collected outcomes in completion order (`none` for a nil error).
`getSessions` (`src/cmd/wick/helpers.go` lines 339-362 and 558-579)
submits one connection attempt per requested session; the attempts'
outcomes are modelled as a list of `Except` values in completion order,
with the session type abstract. -/

/-- Model of `getErrorFromErrorChannel`: collect the non-nil errors as
`- <err>` lines; if there are any, one combined `got errors:` message. -/
def getErrorFromErrorChannel (resC : List (Option String)) : Option String :=
  let errs := (resC.filterMap id).map (fun e => "- " ++ e)
  if errs.length ≠ 0 then
    some ("got errors:\n" ++ String.intercalate "\n" errs)
  else none

/-- The error a connection attempt reported, if any. -/
def errOf {α : Type} : Except String α → Option String
  | .ok _ => none
  | .error e => some e

/-- Model of `getSessions`: every attempt appends its session pointer to
the result slice (nil on failure) and reports its error to the channel;
after the pool drains, a non-empty aggregate fails the whole batch and
the session list is dropped. -/
def getSessions {α : Type} (outcomes : List (Except String α)) :
    Except String (List (Option α)) :=
  match getErrorFromErrorChannel (outcomes.map errOf) with
  | some err => .error err
  | none => .ok (outcomes.map Except.toOption)

/-! ### The compose task runner

`executeTasks`, the four validators, `equalArgsKwargs` and
`invocationHandler` (the `main` package file embedded at
`src/unnamed/part_001` lines 308-540).  Session behaviour is abstracted
into an environment of outcome functions; the runner's protocol calls are
recorded in an effect trace so that "aborts immediately" and "continues"
are visible in the result. -/

/-- A positional/keyword payload (`argsKwargs` in the source). -/
structure AK where
  args : List MVal
  kwargs : List (String × MVal)
deriving DecidableEq

/-- One compose task: the loosely-typed record with all optional fields
(`Tasks` in the source, yaml tags omitted). -/
structure Task where
  name : String
  type : String
  options : List (String × MVal)
  procedure : String
  yield : Option AK
  invocation : Option AK
  parameters : Option AK
  result : Option AK
  topic : String
  event : Option AK
deriving DecidableEq

/-- Model of `equalArgsKwargs`: `reflect.DeepEqual` on the positional
lists, then on the keyword maps.  Map values are in canonical key order,
so deep equality is structural equality. -/
def equalArgsKwargs (list1 list2 : List MVal)
    (dict1 dict2 : List (String × MVal)) : Bool :=
  if (list1 == list2) = false then false
  else dict1 == dict2

/-- Result of the invocation callback built by `invocationHandler`
(`src/unnamed/part_001` lines 358-374): the response payload and whether
an expectation mismatch was logged. -/
structure InvokeOutcome where
  response : AK
  mismatchLogged : Bool
deriving DecidableEq

/-- Model of `invocationHandler`: diff the actual invocation against the
declared expectation (log-only), then answer with the declared yield or
an empty result. -/
def invocationHandler (invoke yield : Option AK) (actual : AK) : InvokeOutcome :=
  let logged :=
    match invoke with
    | some exp =>
      !(equalArgsKwargs exp.args actual.args exp.kwargs actual.kwargs)
    | none => false
  match yield with
  | some y => { response := y, mismatchLogged := logged }
  | none => { response := ⟨[], []⟩, mismatchLogged := logged }

/-- Model of the event callback installed by the subscribe task
(`src/unnamed/part_001` lines 423-429): the only observable behaviour is
whether the mismatch diagnostic is logged. -/
def eventHandlerLogs (expected : Option AK) (actual : AK) : Bool :=
  match expected with
  | some e => !(equalArgsKwargs e.args actual.args e.kwargs actual.kwargs)
  | none => false

/-- Model of `validateRegister` (`src/unnamed/part_001` lines 460-477);
`none` is a nil error. -/
def validateRegister (procedure topic : String)
    (event result parameters : Option AK) : Option String :=
  if procedure = "" then some "procedure is required for register"
  else if topic ≠ "" then some "topic is not required for register"
  else if event ≠ none then some "event is not required for register"
  else if result ≠ none then some "result is not required for register"
  else if parameters ≠ none then some "parameters are not required for register"
  else none

/-- Model of `validateCall` (`src/unnamed/part_001` lines 479-496). -/
def validateCall (procedure topic : String)
    (event yield invocation : Option AK) : Option String :=
  if procedure = "" then some "procedure is required for call"
  else if topic ≠ "" then some "topic is not required for call"
  else if event ≠ none then some "event is not required for call"
  else if yield ≠ none then some "yield is not required for call"
  else if invocation ≠ none then some "invocation are not required for call"
  else none

/-- Model of `validateSubscribe` (`src/unnamed/part_001` lines 498-518). -/
def validateSubscribe (topic procedure : String)
    (result yield invocation parameters : Option AK) : Option String :=
  if topic = "" then some "topic is required for subscribe"
  else if procedure ≠ "" then some "procedure is not required for subscribe"
  else if result ≠ none then some "result is not required for subscribe"
  else if yield ≠ none then some "yield is not required for subscribe"
  else if invocation ≠ none then some "invocation is not required for subscribe"
  else if parameters ≠ none then some "parameters are not required for subscribe"
  else none

/-- Model of `validatePublish` (`src/unnamed/part_001` lines 520-540). -/
def validatePublish (topic procedure : String)
    (event yield invocation result : Option AK) : Option String :=
  if topic = "" then some "topic is required for publish"
  else if procedure ≠ "" then some "procedure is not required for publish"
  else if result ≠ none then some "result is not required for publish"
  else if yield ≠ none then some "yield is not required for publish"
  else if invocation ≠ none then some "invocation is not required for publish"
  else if event ≠ none then some "event is not required for publish"
  else none

/-- A protocol call the runner performed, in order. -/
inductive Effect where
  | registered (proc : String)
  | called (proc : String) (params : Option AK)
  | mismatchLogged (proc : String)
  | subscribed (topic : String)
  | published (topic : String) (params : Option AK)
deriving DecidableEq

/-- Outcomes of the two sessions' protocol operations: what
`producerSession.Register/Subscribe` and `consumerSession.Call/Publish`
return for a given task (`none`/`Except.ok` meaning a nil error). -/
structure SessionEnv where
  registerOutcome : Task → Option String
  callOutcome : Task → Except String AK
  subscribeOutcome : Task → Option String
  publishOutcome : Task → Option String

/-- Model of `executeTasks` (`src/unnamed/part_001` lines 377-458): each
task is validated and then performed strictly in order; the first
validation or protocol error aborts the run with that error; a call-result
expectation mismatch is only logged.  Returns the effect trace together
with the returned error (`none` for a nil error). -/
def executeTasks (env : SessionEnv) : List Task → List Effect × Option String
  | [] => ([], none)
  | t :: rest =>
    if t.type = "register" then
      match validateRegister t.procedure t.topic t.event t.result t.parameters with
      | some e => ([], some e)
      | none =>
        match env.registerOutcome t with
        | some e => ([.registered t.procedure], some e)
        | none =>
          let (tr, r) := executeTasks env rest
          (.registered t.procedure :: tr, r)
    else if t.type = "call" then
      match validateCall t.procedure t.topic t.event t.yield t.invocation with
      | some e => ([], some e)
      | none =>
        match env.callOutcome t with
        | .error e => ([.called t.procedure t.parameters], some e)
        | .ok res =>
          let diag : List Effect :=
            match t.result with
            | some exp =>
              if equalArgsKwargs exp.args res.args exp.kwargs res.kwargs then []
              else [.mismatchLogged t.procedure]
            | none => []
          let (tr, r) := executeTasks env rest
          (.called t.procedure t.parameters :: diag ++ tr, r)
    else if t.type = "subscribe" then
      match validateSubscribe t.topic t.procedure t.result t.yield t.invocation
          t.parameters with
      | some e => ([], some e)
      | none =>
        match env.subscribeOutcome t with
        | some e => ([.subscribed t.topic], some e)
        | none =>
          let (tr, r) := executeTasks env rest
          (.subscribed t.topic :: tr, r)
    else if t.type = "publish" then
      match validatePublish t.topic t.procedure t.event t.yield t.invocation
          t.result with
      | some e => ([], some e)
      | none =>
        match env.publishOutcome t with
        | some e => ([.published t.topic t.parameters], some e)
        | none =>
          let (tr, r) := executeTasks env rest
          (.published t.topic t.parameters :: tr, r)
    else
      ([], some (t.type ++ " not supported: supported types are register, call, subscribe, publish"))

/-- A session environment in which every protocol operation succeeds and
every call answers with the empty payload (used to exercise the runner on
concrete task lists). -/
def trivialSessionEnv : SessionEnv where
  registerOutcome := fun _ => none
  callOutcome := fun _ => .ok ⟨[], []⟩
  subscribeOutcome := fun _ => none
  publishOutcome := fun _ => none

/-! ### The operation executor's counting model

Modelled from the spec: the Operation Executor itself (`core.Call` and
`core.Publish`) is not among the sources under `src/`; only its tests are.
Per §4.2 of the specification it submits `repeatCount` units of work onto
a worker pool of size `concurrency`, each unit performing exactly one
call/publish, and returns only after the pool drains.  The pool is
modelled by assigning unit `i` to worker `i % concurrency`; each worker
executes its whole queue before the executor returns, so the handler's
invocation count is the total length of all worker queues. -/

/-- Modelled from the spec: the units of work worker `w` executes. -/
def workerQueue (repeatCount concurrency w : Nat) : List Nat :=
  (List.range repeatCount).filter (fun i => i % concurrency = w)

/-- Modelled from the spec: the counting handler's value after the
executor returns — one increment per executed unit of work, summed over
all workers. -/
def totalInvocations (repeatCount concurrency : Nat) : Nat :=
  ∑ w ∈ Finset.range concurrency, (workerQueue repeatCount concurrency w).length

/-! ## Theorems -/

/-- Helper: `filterMap id` is empty exactly when every entry is `none`. -/
theorem filterMap_id_eq_nil_iff (l : List (Option String)) :
    l.filterMap id = [] ↔ ∀ x ∈ l, x = none := by
  induction l with
  | nil => simp
  | cons hd tl ih => cases hd <;> simp [List.filterMap_cons, ih]

/-- Helper: draining an all-nil channel yields a nil error. -/
theorem errorChannel_none_iff (resC : List (Option String)) :
    getErrorFromErrorChannel resC = none ↔ ∀ x ∈ resC, x = none := by
  unfold getErrorFromErrorChannel
  by_cases h : resC.filterMap id = []
  · have hall := (filterMap_id_eq_nil_iff resC).mp h
    rw [h]
    exact iff_of_true (by simp) hall
  · simp only [List.length_map]
    rw [if_pos (by simpa [List.length_eq_zero] using h)]
    simp only [reduceCtorEq, false_iff]
    exact fun hall => h ((filterMap_id_eq_nil_iff resC).mpr hall)

/-- Helper: draining a channel with a failure yields the aggregate. -/
theorem errorChannel_some (resC : List (Option String))
    (h : resC.filterMap id ≠ []) :
    getErrorFromErrorChannel resC =
      some ("got errors:\n" ++
        String.intercalate "\n" ((resC.filterMap id).map (fun e => "- " ++ e))) := by
  unfold getErrorFromErrorChannel
  rw [if_pos (by simpa [List.length_eq_zero] using h)]

/-- Claim C2: draining the bounded error channel after the pool completes
returns nil exactly when every collected outcome is nil; otherwise it
returns one combined multi-line error, `got errors:` first and every
non-nil failure on its own `- `-prefixed line. -/
theorem getErrorFromErrorChannel_contract (resC : List (Option String)) :
    (getErrorFromErrorChannel resC = none ↔ ∀ x ∈ resC, x = none) ∧
    ((∃ x ∈ resC, x ≠ none) →
      getErrorFromErrorChannel resC =
        some ("got errors:\n" ++
          String.intercalate "\n" ((resC.filterMap id).map (fun e => "- " ++ e)))) := by
  refine ⟨errorChannel_none_iff resC, ?_⟩
  rintro ⟨x, hx, hne⟩
  exact errorChannel_some resC
    (fun hnil => hne ((filterMap_id_eq_nil_iff resC).mp hnil x hx))

/-- Witness for C2 at a concrete channel. -/
theorem getErrorFromErrorChannel_contract_witness :
    getErrorFromErrorChannel [some "boom", none] = some "got errors:\n- boom" := by
  have h := (getErrorFromErrorChannel_contract [some "boom", none]).2
    ⟨some "boom", by simp, by simp⟩
  exact h.trans (by decide)

/-- Helper: joining one line is that line. -/
theorem intercalate_singleton (x : String) : String.intercalate "\n" [x] = x := rfl

/-- Helper: string concatenation is associative. -/
theorem string_append_assoc (a b c : String) : (a ++ b) ++ c = a ++ (b ++ c) := by
  apply String.ext
  simp [String.data_append, List.append_assoc]

/-- Claim C1: for any batch of connection attempts, `getSessions` either
returns one session per attempt with a nil error (when every attempt
succeeds), or — as soon as at least one attempt fails — drops the session
list and returns the single aggregate error listing every failed attempt;
with exactly one failed attempt the result is that batch failure, not a
quietly returned success list. -/
theorem getSessions_batch_contract {α : Type} (outcomes : List (Except String α))
    (hN : 1 ≤ outcomes.length) :
    ((∀ o ∈ outcomes, errOf o = none) →
      ∃ l, getSessions outcomes = .ok l ∧ l.length = outcomes.length ∧
        ∀ x ∈ l, x ≠ none) ∧
    ((∃ o ∈ outcomes, errOf o ≠ none) →
      getSessions outcomes =
        .error ("got errors:\n" ++ String.intercalate "\n"
          (((outcomes.map errOf).filterMap id).map (fun e => "- " ++ e)))) ∧
    (∀ e : String, (outcomes.map errOf).filterMap id = [e] →
      getSessions outcomes = .error ("got errors:\n- " ++ e)) := by
  refine ⟨?_, ?_, ?_⟩
  · intro h
    have hch : getErrorFromErrorChannel (outcomes.map errOf) = none := by
      refine (errorChannel_none_iff _).mpr ?_
      intro x hx
      obtain ⟨o, ho, rfl⟩ := List.mem_map.mp hx
      exact h o ho
    refine ⟨outcomes.map Except.toOption, ?_, by simp, ?_⟩
    · unfold getSessions
      rw [hch]
    · intro x hx
      obtain ⟨o, ho, rfl⟩ := List.mem_map.mp hx
      cases o with
      | ok s => simp [Except.toOption]
      | error e => exact absurd (h _ ho) (by simp [errOf])
  · rintro ⟨o, ho, hne⟩
    have hch := errorChannel_some (outcomes.map errOf) (fun hnil =>
      hne ((filterMap_id_eq_nil_iff _).mp hnil (errOf o) (List.mem_map_of_mem _ ho)))
    unfold getSessions
    rw [hch]
  · intro e he
    have hch := errorChannel_some (outcomes.map errOf) (by rw [he]; simp)
    rw [he] at hch
    unfold getSessions
    rw [hch]
    simp only [List.map_cons, List.map_nil, intercalate_singleton]
    rw [← string_append_assoc]
    have : ("got errors:\n" ++ "- ") = "got errors:\n- " := by decide
    rw [this]

/-- Witness for C1 at concrete batches: an all-success pair and a batch
with exactly one failure. -/
theorem getSessions_batch_contract_witness :
    getSessions [Except.ok (1 : Nat), Except.ok 2] = .ok [some 1, some 2] ∧
    getSessions [Except.ok (1 : Nat), Except.error "boom"] =
      .error "got errors:\n- boom" := by
  constructor
  · obtain ⟨l, hl, hlen, hsome⟩ :=
      (getSessions_batch_contract [Except.ok (1 : Nat), Except.ok 2] (by decide)).1
        (by decide)
    have hval : getSessions [Except.ok (1 : Nat), Except.ok 2] =
        .ok [some 1, some 2] := rfl
    exact hval
  · exact (getSessions_batch_contract [Except.ok (1 : Nat), Except.error "boom"]
      (by decide)).2.2 "boom" (by decide)

/-- Helper: running a concatenated trace is sequential composition. -/
theorem runRegTrace_append (s : RegState) (l1 l2 : List RegEvent) :
    runRegTrace s (l1 ++ l2) = (runRegTrace s l1).bind (fun s' => runRegTrace s' l2) := by
  induction l1 generalizing s with
  | nil => simp [runRegTrace]
  | cons e rest ih =>
    simp only [List.cons_append, runRegTrace]
    cases regStep s e with
    | none => simp
    | some s' => simp [ih]

/-- Helper: after `k < m` invocations from an active state with `m`
remaining, the registration is still active with `m - k` remaining. -/
theorem run_invokes_lt (k m : Nat) (hk : k < m) :
    runRegTrace
        { remaining := (m : Int), registered := true, timerSet := false, closed := false }
        (List.replicate k .invoke) =
      some { remaining := (m : Int) - k, registered := true, timerSet := false,
             closed := false } := by
  induction k generalizing m with
  | zero => simp [runRegTrace]
  | succ k ih =>
    rw [List.replicate_succ]
    simp only [runRegTrace, regStep, handleInvocation]
    rw [if_pos (by simp)]
    rw [if_neg (by omega : ¬((m : Int) - 1 = 0))]
    · have hm2 : (m : Int) - 1 = ((m - 1 : Nat) : Int) := by omega
      simp only [hm2]
      rw [ih (m - 1) (by omega)]
      congr 1
      simp only [RegState.mk.injEq, and_true]
      omega

/-- Helper: after exactly `m ≥ 1` invocations the registration is
unregistered with the close timer armed, but not yet closed. -/
theorem run_invokes_exhausted (m : Nat) (hm : 1 ≤ m) :
    runRegTrace
        { remaining := (m : Int), registered := true, timerSet := false, closed := false }
        (List.replicate m .invoke) =
      some { remaining := 0, registered := false, timerSet := true, closed := false } := by
  have hsplit : List.replicate m RegEvent.invoke =
      List.replicate (m - 1) RegEvent.invoke ++ [RegEvent.invoke] := by
    rw [← List.replicate_succ']
    congr 1
    omega
  rw [hsplit, runRegTrace_append, run_invokes_lt (m - 1) m (by omega)]
  have h1 : (m : Int) - ((m - 1 : Nat) : Int) = 1 := by omega
  rw [h1]
  simp [runRegTrace, regStep, handleInvocation]

/-- Claim C8: with a configured maximum invocation count `n ≥ 1`, the
handler decrements the remaining counter on each invocation; after any
`k < n` invocations it is still registered with `n - k` remaining; after
exactly `n` it has unregistered and armed the one-second close timer but
the session is not yet closed — only the grace timer firing closes it, an
invocation step never does, and once closed no invocation is possible. -/
theorem registerInvocationHandler_lifecycle (n k : Nat) (hn : 1 ≤ n) (hk : k < n) :
    (∀ s : RegState, (handleInvocation s).remaining = s.remaining - 1 ∧
        (handleInvocation s).closed = s.closed) ∧
    runRegTrace (initRegState n) (List.replicate k .invoke) =
      some { remaining := (n : Int) - k, registered := true, timerSet := false,
             closed := false } ∧
    runRegTrace (initRegState n) (List.replicate n .invoke) =
      some { remaining := 0, registered := false, timerSet := true, closed := false } ∧
    runRegTrace (initRegState n) (List.replicate n .invoke ++ [RegEvent.grace]) =
      some { remaining := 0, registered := false, timerSet := true, closed := true } ∧
    (∀ s s' : RegState, regStep s .invoke = some s' → s'.closed = s.closed) ∧
    (∀ s s' : RegState, regStep s .grace = some s' →
        s.timerSet = true ∧ s'.closed = true) ∧
    (∀ s : RegState, s.closed = true → regStep s .invoke = none) := by
  have hdec : ∀ s : RegState, (handleInvocation s).remaining = s.remaining - 1 ∧
      (handleInvocation s).closed = s.closed := by
    intro s
    simp only [handleInvocation]
    split <;> simp
  refine ⟨hdec, run_invokes_lt k n hk, run_invokes_exhausted n hn, ?_, ?_, ?_, ?_⟩
  · have hrun := run_invokes_exhausted n hn
    rw [runRegTrace_append]
    unfold initRegState
    rw [hrun]
    simp [runRegTrace, regStep]
  · intro s s' h
    simp only [regStep] at h
    split at h
    · cases h
      exact (hdec s).2
    · exact absurd h (by simp)
  · intro s s' h
    simp only [regStep] at h
    split at h
    next hcond =>
      cases h
      have hc : s.timerSet = true ∧ s.closed = false := by
        simpa [Bool.and_eq_true] using hcond
      exact ⟨hc.1, rfl⟩
    next => exact absurd h (by simp)
  · intro s h
    simp only [regStep, h]
    simp

/-- Witness for C8 at `n = 2`: the registration closes only after the
grace event that follows the second invocation. -/
theorem registerInvocationHandler_lifecycle_witness :
    runRegTrace (initRegState 2) (List.replicate 2 .invoke ++ [RegEvent.grace]) =
      some { remaining := 0, registered := false, timerSet := true, closed := true } :=
  (registerInvocationHandler_lifecycle 2 1 (by decide) (by decide)).2.2.2.1

/-- Helper (no `R ≥ 1` needed): with at least one worker, the pool
executes each of the `R` submitted units exactly once. -/
theorem totalInvocations_eq (R C : Nat) (hC : 1 ≤ C) : totalInvocations R C = R := by
  induction R with
  | zero => simp [totalInvocations, workerQueue]
  | succ R ih =>
    unfold totalInvocations workerQueue at ih ⊢
    simp only [List.range_succ, List.filter_append, List.length_append]
    rw [Finset.sum_add_distrib, ih]
    have hone : ∑ w ∈ Finset.range C,
        (List.filter (fun i => decide (i % C = w)) [R]).length = 1 := by
      have hpt : ∀ w, (List.filter (fun i => decide (i % C = w)) [R]).length =
          if R % C = w then 1 else 0 := by
        intro w
        by_cases h : R % C = w <;> simp [h]
      simp only [hpt]
      rw [Finset.sum_ite_eq]
      simp [Finset.mem_range.mpr (Nat.mod_lt _ (by omega : 0 < C))]
    rw [hone]

/-- Claim C9 (spec-modelled: `core.Call`/`core.Publish` are not among the
sources under `src/`): for repeat count `R ≥ 1` and concurrency `C ≥ 1`,
the counting handler is invoked exactly `R` times once the executor's
pool has drained, independent of `C`. -/
theorem totalInvocations_eq_repeatCount (R C : Nat) (hR : 1 ≤ R) (hC : 1 ≤ C) :
    totalInvocations R C = R :=
  totalInvocations_eq R C hC

/-- Witness for C9 at `R = 5`, `C = 2`. -/
theorem totalInvocations_eq_repeatCount_witness :
    1 ≤ 5 ∧ 1 ≤ 2 ∧ totalInvocations 5 2 = 5 :=
  ⟨by decide, by decide, totalInvocations_eq_repeatCount 5 2 (by decide) (by decide)⟩

/-- Helper: split the newline off the literal that follows the details
part when the args part is present. -/
theorem split_nl_args (x : String) : "\nargs:\n" ++ x = "\n" ++ ("args:\n" ++ x) := by
  rw [← string_append_assoc]
  have h : ("\n" ++ "args:\n" : String) = "\nargs:\n" := by decide
  rw [h]

/-- Helper: split the newline off the literal that follows the details
part when the kwargs part is present. -/
theorem split_nl_kwargs (x : String) :
    "\nkwargs:\n" ++ x = "\n" ++ ("kwargs:\n" ++ x) := by
  rw [← string_append_assoc]
  have h : ("\n" ++ "kwargs:\n" : String) = "\nkwargs:\n" := by decide
  rw [h]

/-- Helper: split the newline off the literal fallback after a details
part. -/
theorem split_nl_fallback : ("\nargs: []\nkwargs: \x7b\x7d" : String) =
    "\n" ++ "args: []\nkwargs: \x7b\x7d" := by decide

/-- Claim C4: `ArgsKWArgs` produces the stable layout — an optional
`details:` part first (only when details is non-nil), then `args:` with
the four-space-indented JSON only when args is non-empty, then `kwargs:`
likewise, and exactly the literal two-line `args: []` / `kwargs: ` text
when all three are absent; in particular the §8 example renders exactly
as given. -/
theorem ArgsKWArgs_layout :
    (∀ (args : List MVal) (kwArgs : List (String × MVal))
        (details : Option (List (String × MVal))),
      ArgsKWArgs args kwArgs details = claimedArgsKWArgsFormat args kwArgs details) ∧
    ArgsKWArgs [.mstr "test", .mint 1, .mbool true, .mstr "1.0"] [] none =
      "args:\n[\n    \"test\",\n    1,\n    true,\n    \"1.0\"\n]" ∧
    ArgsKWArgs [] [] none = "args: []\nkwargs: \x7b\x7d" := by
  refine ⟨?_, by decide, by decide⟩
  intro args kwArgs details
  unfold ArgsKWArgs claimedArgsKWArgsFormat
  rcases details with _ | d <;>
    rcases args with _ | ⟨a, as⟩ <;>
    rcases kwArgs with _ | ⟨kv, kvs⟩ <;>
    simp [string_append_assoc, split_nl_args, split_nl_kwargs, split_nl_fallback]

/-- Counterexample for C5: with both collections non-empty the code
concatenates the two segments with no separating space, so the claimed
`args: <json> kwargs: <json>` form (with the space) is not what is
returned. -/
theorem progressArgsKWArgs_space_counterexample :
    progressArgsKWArgs [.mstr "test"] [("key", .mstr "value")] =
      "args: [\"test\"]kwargs: \x7b\"key\":\"value\"\x7d" ∧
    claimedProgressFormat [.mstr "test"] [("key", .mstr "value")] =
      "args: [\"test\"] kwargs: \x7b\"key\":\"value\"\x7d" ∧
    progressArgsKWArgs [.mstr "test"] [("key", .mstr "value")] ≠
      claimedProgressFormat [.mstr "test"] [("key", .mstr "value")] := by
  refine ⟨by decide, by decide, by decide⟩

/-- Claim C5 as amended: the compact single-line form has each segment
present only when its collection is non-empty, the two segments are
concatenated directly (no separator between them), and the output is
exactly `args: [] kwargs: ` with braces when both are empty. -/
theorem progressArgsKWArgs_amended_layout :
    (∀ (args : List MVal) (kwArgs : List (String × MVal)),
      progressArgsKWArgs args kwArgs = amendedProgressFormat args kwArgs) ∧
    progressArgsKWArgs [] [] = "args: [] kwargs: \x7b\x7d" := by
  refine ⟨?_, by decide⟩
  intro args kwArgs
  unfold progressArgsKWArgs amendedProgressFormat
  rcases args with _ | ⟨a, as⟩ <;>
    rcases kwArgs with _ | ⟨kv, kvs⟩ <;>
    simp [string_append_assoc]

/-- Claim C6: every task's fields are validated by kind before the task is
performed, and a violation aborts the whole run immediately with the
validator's error: the four validators accept exactly the required/forbidden
field combinations of the table in §4.4; a register task with a non-empty
topic (and its required procedure present) fails with `topic is not
required for register`; a call task missing its procedure fails with
`procedure is required for call`; an unrecognized task kind fails with the
error naming the four valid kinds. -/
theorem executeTasks_validation_contract :
    (∀ (p t : String) (e r pa : Option AK),
      validateRegister p t e r pa = none ↔
        (p ≠ "" ∧ t = "" ∧ e = none ∧ r = none ∧ pa = none)) ∧
    (∀ (p t : String) (e y i : Option AK),
      validateCall p t e y i = none ↔
        (p ≠ "" ∧ t = "" ∧ e = none ∧ y = none ∧ i = none)) ∧
    (∀ (t p : String) (r y i pa : Option AK),
      validateSubscribe t p r y i pa = none ↔
        (t ≠ "" ∧ p = "" ∧ r = none ∧ y = none ∧ i = none ∧ pa = none)) ∧
    (∀ (t p : String) (e y i r : Option AK),
      validatePublish t p e y i r = none ↔
        (t ≠ "" ∧ p = "" ∧ r = none ∧ y = none ∧ i = none ∧ e = none)) ∧
    (∀ (env : SessionEnv) (task : Task) (rest : List Task) (err : String),
      (task.type = "register" →
        validateRegister task.procedure task.topic task.event task.result
          task.parameters = some err →
        executeTasks env (task :: rest) = ([], some err)) ∧
      (task.type = "call" →
        validateCall task.procedure task.topic task.event task.yield
          task.invocation = some err →
        executeTasks env (task :: rest) = ([], some err)) ∧
      (task.type = "subscribe" →
        validateSubscribe task.topic task.procedure task.result task.yield
          task.invocation task.parameters = some err →
        executeTasks env (task :: rest) = ([], some err)) ∧
      (task.type = "publish" →
        validatePublish task.topic task.procedure task.event task.yield
          task.invocation task.result = some err →
        executeTasks env (task :: rest) = ([], some err))) ∧
    (∀ (env : SessionEnv) (task : Task) (rest : List Task),
      task.type = "register" → task.procedure ≠ "" → task.topic ≠ "" →
      executeTasks env (task :: rest) =
        ([], some "topic is not required for register")) ∧
    (∀ (env : SessionEnv) (task : Task) (rest : List Task),
      task.type = "call" → task.procedure = "" →
      executeTasks env (task :: rest) = ([], some "procedure is required for call")) ∧
    (∀ (env : SessionEnv) (task : Task) (rest : List Task),
      task.type ≠ "register" → task.type ≠ "call" → task.type ≠ "subscribe" →
      task.type ≠ "publish" →
      executeTasks env (task :: rest) =
        ([], some (task.type ++
          " not supported: supported types are register, call, subscribe, publish"))) := by
  refine ⟨?_, ?_, ?_, ?_, ?_, ?_, ?_, ?_⟩
  · intro p t e r pa
    unfold validateRegister
    split_ifs <;> simp_all
  · intro p t e y i
    unfold validateCall
    split_ifs <;> simp_all
  · intro t p r y i pa
    unfold validateSubscribe
    split_ifs <;> simp_all
  · intro t p e y i r
    unfold validatePublish
    split_ifs <;> simp_all
  · intro env task rest err
    refine ⟨?_, ?_, ?_, ?_⟩ <;> intro htype herr <;>
      simp [executeTasks, htype, herr]
  · intro env task rest htype hproc htopic
    have herr : validateRegister task.procedure task.topic task.event task.result
        task.parameters = some "topic is not required for register" := by
      unfold validateRegister
      rw [if_neg hproc, if_pos htopic]
    simp [executeTasks, htype, herr]
  · intro env task rest htype hproc
    have herr : validateCall task.procedure task.topic task.event task.yield
        task.invocation = some "procedure is required for call" := by
      unfold validateCall
      rw [if_pos hproc]
    simp [executeTasks, htype, herr]
  · intro env task rest h1 h2 h3 h4
    simp [executeTasks, h1, h2, h3, h4]

/-- Witness for C6: a register task carrying a topic is rejected with the
expected message; an unknown kind is rejected naming the four kinds. -/
theorem executeTasks_validation_contract_witness :
    executeTasks trivialSessionEnv
      [{ name := "r", type := "register", options := [], procedure := "p",
         yield := none, invocation := none, parameters := none, result := none,
         topic := "t", event := none }] =
      ([], some "topic is not required for register") ∧
    executeTasks trivialSessionEnv
      [{ name := "h", type := "hello", options := [], procedure := "p",
         yield := none, invocation := none, parameters := none, result := none,
         topic := "", event := none }] =
      ([], some "hello not supported: supported types are register, call, subscribe, publish") := by
  constructor
  · exact executeTasks_validation_contract.2.2.2.2.2.1 trivialSessionEnv _ []
      (by decide) (by decide) (by decide)
  · have h := executeTasks_validation_contract.2.2.2.2.2.2.2 trivialSessionEnv
      { name := "h", type := "hello", options := [], procedure := "p",
        yield := none, invocation := none, parameters := none, result := none,
        topic := "", event := none } []
      (by decide) (by decide) (by decide) (by decide)
    exact h.trans (by decide)

/-- Claim C7: a declared expectation is compared by structural deep
equality of the positional sequence and the keyword mapping, and a
mismatch is only logged: the invocation callback's response does not
depend on the comparison, and a mismatching call result leaves
`executeTasks` running the remaining tasks with its returned error status
exactly that of the remaining tasks. -/
theorem expectation_mismatch_nonfatal :
    (∀ (l1 l2 : List MVal) (d1 d2 : List (String × MVal)),
      equalArgsKwargs l1 l2 d1 d2 = true ↔ (l1 = l2 ∧ d1 = d2)) ∧
    (∀ (invoke yield : Option AK) (actual : AK),
      (invocationHandler invoke yield actual).response = yield.getD ⟨[], []⟩) ∧
    (∀ (env : SessionEnv) (task : Task) (rest : List Task) (res exp : AK),
      task.type = "call" →
      validateCall task.procedure task.topic task.event task.yield
        task.invocation = none →
      env.callOutcome task = .ok res →
      task.result = some exp →
      equalArgsKwargs exp.args res.args exp.kwargs res.kwargs = false →
      executeTasks env (task :: rest) =
        (.called task.procedure task.parameters :: .mismatchLogged task.procedure ::
           (executeTasks env rest).1,
         (executeTasks env rest).2)) ∧
    (∀ (env : SessionEnv) (task : Task) (rest : List Task),
      task.type = "subscribe" →
      validateSubscribe task.topic task.procedure task.result task.yield
        task.invocation task.parameters = none →
      env.subscribeOutcome task = none →
      executeTasks env (task :: rest) =
        (.subscribed task.topic :: (executeTasks env rest).1,
         (executeTasks env rest).2)) := by
  refine ⟨?_, ?_, ?_, ?_⟩
  · intro l1 l2 d1 d2
    unfold equalArgsKwargs
    split_ifs with h <;> simp_all
  · intro invoke yield actual
    unfold invocationHandler
    cases yield <;> rfl
  · intro env task rest res exp htype hval hcall hres hmism
    rcases hrest : executeTasks env rest with ⟨tr, r⟩
    simp [executeTasks, htype, hval, hcall, hres, hmism, hrest]
  · intro env task rest htype hval hsub
    rcases hrest : executeTasks env rest with ⟨tr, r⟩
    simp [executeTasks, htype, hval, hsub, hrest]

/-- Witness for C7: a call whose result expectation mismatches still
completes the run with a nil error, logging the mismatch. -/
theorem expectation_mismatch_nonfatal_witness :
    executeTasks trivialSessionEnv
      [{ name := "c", type := "call", options := [], procedure := "p",
         yield := none, invocation := none, parameters := none,
         result := some ⟨[.mint 1], []⟩, topic := "", event := none }] =
      ([.called "p" none, .mismatchLogged "p"], none) := by
  have h := expectation_mismatch_nonfatal.2.2.1 trivialSessionEnv
    { name := "c", type := "call", options := [], procedure := "p",
      yield := none, invocation := none, parameters := none,
      result := some ⟨[.mint 1], []⟩, topic := "", event := none }
    [] ⟨[], []⟩ ⟨[.mint 1], []⟩
    (by decide) (by decide) rfl (by decide) (by decide)
  exact h.trans (by decide)

/-- Claim C10: the codec is not total — a lone quote character passes
both the has-prefix and has-suffix checks of the quoted-literal case, and
the quote-stripping slice `value[1:len(value)-1]` then has inverted
bounds, so `listToWampList` and `dictToWampDict` panic instead of
returning a value or an error. -/
theorem lone_quote_panics :
    quoteWrapped sqChar sqStr = true ∧ quoteWrapped dqChar dqStr = true ∧
    sqStr.length = 1 ∧ dqStr.length = 1 ∧
    listToWampList (fun _ => .error "no file") (some [sqStr]) false = .panicked ∧
    listToWampList (fun _ => .error "no file") (some [dqStr]) false = .panicked ∧
    dictToWampDict (fun _ => .error "no file") [("k", sqStr)] false = .panicked ∧
    dictToWampDict (fun _ => .error "no file") [("k", dqStr)] false = .panicked := by
  decide

/-- Counterexample for C3: the claim's fixed ordered tries (with a
marker-prefixed file reference and total quote stripping) disagree with
the code.  A string containing the marker `:=` in the middle is read as a
file by the code although it is not marker-prefixed, and a lone quote
makes the code panic where the stated tries would return a value. -/
theorem classify_stated_counterexample :
    classifyValue (fun p => if p = "b" then .ok [98] else .error "open failed")
        true "a:=b" = .ok (.wbytes [98]) ∧
    specClassifyStated (fun p => if p = "b" then .ok [98] else .error "open failed")
        true "a:=b" = .ok (.wstr "a:=b") ∧
    classifyValue (fun p => if p = "b" then .ok [98] else .error "open failed")
        true "a:=b" ≠
      specClassifyStated (fun p => if p = "b" then .ok [98] else .error "open failed")
        true "a:=b" ∧
    listToWampList (fun _ => .error "no file") (some [sqStr]) false = .panicked ∧
    specClassifyStated (fun _ => .error "no file") false sqStr = .ok (.wstr "") := by
  decide

/-- Claim C3 as amended: for every input string, `listToWampList` and
`dictToWampDict` classify it by the fixed ordered tries — quoted literal
(a lone quote character panics in the quote-stripping slice), then, when
file checking is enabled, any string containing the marker `:=` is a file
reference whose path is the part after the first marker (replaced by the
file's raw bytes), then integer, float, boolean, JSON object, JSON
array-of-objects, JSON array, else the raw string; in particular a quoted
`'123'` yields the string `123` and bare `123` the integer 123. -/
theorem classifyValue_amended_contract :
    (∀ (fs : String → Except String (List Nat)) (checkFile : Bool) (value : String),
      classifyValue fs checkFile value = specClassifyAmended fs checkFile value) ∧
    (∀ fs : String → Except String (List Nat),
      classifyValue fs false (sqStr ++ "123" ++ sqStr) = .ok (.wstr "123")) ∧
    (∀ fs : String → Except String (List Nat),
      classifyValue fs false "123" = .ok (.wint 123)) := by
  refine ⟨?_, ?_, ?_⟩
  · intro fs checkFile value
    unfold classifyValue specClassifyAmended getPathIfFile
    by_cases h1 : quoteWrapped sqChar value
    · simp [firstSome, h1]
    · by_cases h2 : quoteWrapped dqChar value
      · simp [firstSome, h1, h2]
      · rcases hsplit : splitAtMarker value.data with _ | ⟨before, after⟩ <;>
          rcases hc : checkFile with _ | _ <;>
          rcases hA : parseAtoi value with _ | n <;>
          rcases hF : parseGoFloat value with _ | f <;>
          rcases hB : parseGoBool value with _ | b <;>
          rcases hM : unmarshalIntoMap value with _ | m <;>
          rcases hL : unmarshalIntoObjList value with _ | l <;>
          rcases hJ : unmarshalIntoList value with _ | j <;>
          simp [firstSome, h1, h2, hsplit, hA, hF, hB, hM, hL, hJ]
  · intro fs
    have h1 : quoteWrapped sqChar (sqStr ++ "123" ++ sqStr) = true := by decide
    have h2 : (2 : Nat) ≤ (sqStr ++ "123" ++ sqStr).length := by decide
    have h3 : stripEnds (sqStr ++ "123" ++ sqStr) = "123" := by decide
    simp [classifyValue, h1, h2, h3]
    decide
  · intro fs
    have h1 : quoteWrapped sqChar "123" = false := by decide
    have h2 : quoteWrapped dqChar "123" = false := by decide
    have h3 : parseAtoi "123" = some 123 := by decide
    have h4 : splitAtMarker "123".data = none := by decide
    simp [classifyValue, getPathIfFile, h1, h2, h3, h4]

end Wick
